import Mathlib

set_option maxRecDepth 10000

/-
Verification of the configuration migration scripts (export-config.js /
import-config.js): a shallow embedding of the transport client, the
exporter and the importer, with theorems about the claims of the spec.

Strings are modelled as `List Char`.  JavaScript values that flow through
`JSON.parse` / `JSON.stringify` and property access are modelled by the
inductive `JsValue`.  The importer's interaction with the file system and
the remote API is modelled by a `World` record holding the outcome of each
external observation, and `runImport` returns the exit code, the ordered
trace of network calls and the summary-file write.
-/

/-! ### Plain string machinery:
`String.prototype.replaceAll` and substring counting -/

/-- `leadsWith p s` is true when the pattern `p` occurs at the very start
of `s` (character-wise equality). -/
def leadsWith : List Char → List Char → Bool
  | [], _ => true
  | _ :: _, [] => false
  | p :: ps, c :: cs => p == c && leadsWith ps cs

/-- Number of start positions of `s` at which the pattern `pat` occurs.
For the two sentinel patterns of this program (which cannot overlap
themselves) this coincides with the number of non-overlapping matches. -/
def countOccur (pat : List Char) : List Char → Nat
  | [] => 0
  | c :: rest => (if leadsWith pat (c :: rest) then 1 else 0) + countOccur pat rest

/-- The strict tails (proper suffixes, including `[]`) of a list. -/
def tailsStrict : List Char → List (List Char)
  | [] => []
  | _ :: rest => rest :: tailsStrict rest

/-- Fuel-indexed worker for `replaceAll`; each step consumes at least one
character, so fuel `s.length + 1` always suffices (the structural fuel
keeps every definition kernel-computable). -/
def replaceAllF (pat repl : List Char) : Nat → List Char → List Char
  | 0, s => s
  | fuel + 1, s =>
    if pat ≠ [] ∧ leadsWith pat s = true ∧ s ≠ [] then
      repl ++ replaceAllF pat repl fuel (s.drop pat.length)
    else
      match s with
      | [] => []
      | c :: rest => c :: replaceAllF pat repl fuel rest

/-- `String.prototype.replaceAll(pat, repl)` for a nonempty literal
pattern: left-to-right scan, non-overlapping matches, the replacement is
not rescanned.  (The script only ever calls it with the nonempty literal
"REDACTED"; on an empty pattern this model copies the string unchanged,
a case the program never exercises.) -/
def replaceAll (pat repl s : List Char) : List Char :=
  replaceAllF pat repl (s.length + 1) s

/-- The redaction sentinel the remote substitutes for secrets. -/
def RED : List Char := "REDACTED".data

/-- The replacement sentinel written by the exporter. -/
def NEEDS : List Char := "NEEDS_UPDATING".data

/-- The sanitization both export steps apply to the entire serialized
payload: `JSON.stringify(data).replaceAll("REDACTED", "NEEDS_UPDATING")`. -/
def sanitizeSerialized (s : List Char) : List Char := replaceAll RED NEEDS s

/-- `blockFree p b` checks that no occurrence of `p` can begin strictly
inside the block `b` when something is appended after it: every nonempty
proper suffix `d` of `b` either is too short and fails to lead `p`, or is
long enough and is not led by `p`. -/
def blockFree (p b : List Char) : Bool :=
  (tailsStrict b).all fun d =>
    d.isEmpty || (if p.length ≤ d.length then !(leadsWith p d) else !(leadsWith d p))

/-! ### JavaScript values, `JSON.stringify` / `JSON.parse` and property
access, as used by the scripts -/

/-- A JavaScript value as the scripts manipulate them: JSON data plus
`undefined`.  Numbers keep their source lexeme (the scripts never do
arithmetic on them). -/
inductive JsValue where
  | null
  | undefined
  | bool (b : Bool)
  | num (lexeme : List Char)
  | str (s : List Char)
  | arr (elems : List JsValue)
  | obj (fields : List (List Char × JsValue))

/-- The decimal digit character for `n % 10`. -/
def decDigitChar (n : Nat) : Char := Char.ofNat ('0'.toNat + n % 10)

/-- Most-significant-first decimal digits of a positive number (empty on
zero); fuel-indexed, `n + 1` fuel always suffices. -/
def natLexAux : Nat → Nat → List Char
  | 0, _ => []
  | fuel + 1, n => if n = 0 then [] else natLexAux fuel (n / 10) ++ [decDigitChar n]

/-- Decimal numeral lexeme of a natural number. -/
def natLex (n : Nat) : List Char :=
  if n = 0 then ['0'] else natLexAux (n + 1) n

/-- Property access `v[k]` (and optional chaining `v?.[k]`, which the
scripts use on every possibly-absent step): object field lookup, the
`length` property of arrays and strings, `undefined` everywhere else. -/
def jsGet (v : JsValue) (k : List Char) : JsValue :=
  match v with
  | .obj fs =>
    match fs.find? (fun p => p.1 == k) with
    | some p => p.2
    | none => .undefined
  | .arr es => if k = "length".data then .num (natLex es.length) else .undefined
  | .str s => if k = "length".data then .num (natLex s.length) else .undefined
  | _ => .undefined

/-- JavaScript truthiness.  On number lexemes it treats any form made only
of `0`, `-` and `.` as zero, which covers every numeral the scripts can
meet except exotic exponent spellings of zero. -/
def jsTruthy : JsValue → Bool
  | .null => false
  | .undefined => false
  | .bool b => b
  | .num lx => !(lx.all fun c => c == '0' || c == '-' || c == '.')
  | .str s => !s.isEmpty
  | .arr _ => true
  | .obj _ => true

/-- Lower-case hexadecimal digit for a value below 16. -/
def hexDigit (n : Nat) : Char :=
  if n < 10 then Char.ofNat ('0'.toNat + n) else Char.ofNat ('a'.toNat + (n - 10))

/-- `JSON.stringify` escaping of one character inside a string literal. -/
def escChar (c : Char) : List Char :=
  if c = '\"' then ['\\', '\"']
  else if c = '\\' then ['\\', '\\']
  else if c = '\n' then ['\\', 'n']
  else if c = '\r' then ['\\', 'r']
  else if c = '\t' then ['\\', 't']
  else if c = '\x08' then ['\\', 'b']
  else if c = '\x0c' then ['\\', 'f']
  else if c.toNat < 32 then
    ['\\', 'u', '0', '0', hexDigit (c.toNat / 16), hexDigit (c.toNat % 16)]
  else [c]

/-- A JSON string literal with its surrounding quotes. -/
def escString (s : List Char) : List Char :=
  '\"' :: (s.map escChar).flatten ++ ['\"']

/-- Join a list of pieces with a separator. -/
def sepBy (sep : List Char) : List (List Char) → List Char
  | [] => []
  | [x] => x
  | x :: xs => x ++ sep ++ sepBy sep xs

mutual

/-- Compact `JSON.stringify(v)`.  `undefined` object fields are dropped;
an `undefined` array element serializes as `null`, as in JavaScript. -/
def jsonStringify : JsValue → List Char
  | .null => "null".data
  | .undefined => "null".data
  | .bool true => "true".data
  | .bool false => "false".data
  | .num lx => lx
  | .str s => escString s
  | .arr es => '[' :: sepBy [','] (elemStrings es) ++ [']']
  | .obj fs => '\x7b' :: sepBy [','] (memberStrings fs) ++ ['\x7d']

/-- Serialized array elements, in order. -/
def elemStrings : List JsValue → List (List Char)
  | [] => []
  | v :: vs => jsonStringify v :: elemStrings vs

/-- Serialized object members, in order, skipping `undefined` values. -/
def memberStrings : List (List Char × JsValue) → List (List Char)
  | [] => []
  | (k, v) :: fs =>
    match v with
    | .undefined => memberStrings fs
    | _ => (escString k ++ ':' :: jsonStringify v) :: memberStrings fs

end

mutual

/-- `JSON.stringify(v, null, 2)` at current indentation `ind`: two-space
gap, members on their own lines, `": "` after keys, empty containers kept
on one line — the exact layout Node produces. -/
def stringifyP (ind : List Char) : JsValue → List Char
  | .null => "null".data
  | .undefined => "null".data
  | .bool true => "true".data
  | .bool false => "false".data
  | .num lx => lx
  | .str s => escString s
  | .arr es =>
    match elemPStrings (ind ++ "  ".data) es with
    | [] => "[]".data
    | parts => '[' :: '\n' :: sepBy [',', '\n'] parts ++ '\n' :: (ind ++ "]".data)
  | .obj fs =>
    match memberPStrings (ind ++ "  ".data) fs with
    | [] => "\x7b\x7d".data
    | parts => '\x7b' :: '\n' :: sepBy [',', '\n'] parts ++ '\n' :: (ind ++ "\x7d".data)

/-- Pretty-printed array elements, each prefixed by its indentation. -/
def elemPStrings (ind2 : List Char) : List JsValue → List (List Char)
  | [] => []
  | v :: vs => (ind2 ++ stringifyP ind2 v) :: elemPStrings ind2 vs

/-- Pretty-printed object members, each prefixed by its indentation,
skipping `undefined` values. -/
def memberPStrings (ind2 : List Char) : List (List Char × JsValue) → List (List Char)
  | [] => []
  | (k, v) :: fs =>
    match v with
    | .undefined => memberPStrings ind2 fs
    | _ => (ind2 ++ escString k ++ ':' :: ' ' :: stringifyP ind2 v) :: memberPStrings ind2 fs

end

/-- Pretty printing as the scripts call it: `JSON.stringify(v, null, 2)`. -/
def jsonStringifyPretty (v : JsValue) : List Char := stringifyP [] v

/-- JSON whitespace. -/
def isWs (c : Char) : Bool := c == ' ' || c == '\n' || c == '\t' || c == '\r'

/-- Skip JSON whitespace. -/
def skipWs (s : List Char) : List Char := s.dropWhile isWs

/-- Characters that may continue a number lexeme. -/
def isNumChar (c : Char) : Bool :=
  c == '-' || c == '+' || c == '.' || c == 'e' || c == 'E' || "0123456789".data.contains c

/-- Value of a hexadecimal digit. -/
def hexVal (c : Char) : Option Nat :=
  if '0' ≤ c ∧ c ≤ '9' then some (c.toNat - '0'.toNat)
  else if 'a' ≤ c ∧ c ≤ 'f' then some (c.toNat - 'a'.toNat + 10)
  else if 'A' ≤ c ∧ c ≤ 'F' then some (c.toNat - 'A'.toNat + 10)
  else none

/-- Body of a JSON string literal, after the opening quote: returns the
decoded characters and the input after the closing quote.  Handles the
standard escapes and `\uXXXX` (surrogate pairing is not modelled). -/
def parseStrBody : List Char → Option (List Char × List Char)
  | [] => none
  | '\"' :: r => some ([], r)
  | '\\' :: e :: r =>
    match e with
    | '\"' => (parseStrBody r).map fun p => ('\"' :: p.1, p.2)
    | '\\' => (parseStrBody r).map fun p => ('\\' :: p.1, p.2)
    | '/' => (parseStrBody r).map fun p => ('/' :: p.1, p.2)
    | 'n' => (parseStrBody r).map fun p => ('\n' :: p.1, p.2)
    | 't' => (parseStrBody r).map fun p => ('\t' :: p.1, p.2)
    | 'r' => (parseStrBody r).map fun p => ('\r' :: p.1, p.2)
    | 'b' => (parseStrBody r).map fun p => ('\x08' :: p.1, p.2)
    | 'f' => (parseStrBody r).map fun p => ('\x0c' :: p.1, p.2)
    | 'u' =>
      match r with
      | h1 :: h2 :: h3 :: h4 :: r2 =>
        match hexVal h1, hexVal h2, hexVal h3, hexVal h4 with
        | some a, some b, some c, some d =>
          (parseStrBody r2).map fun p =>
            (Char.ofNat (((a * 16 + b) * 16 + c) * 16 + d) :: p.1, p.2)
        | _, _, _, _ => none
      | _ => none
    | _ => none
  | c :: r => (parseStrBody r).map fun p => (c :: p.1, p.2)

mutual

/-- Fuel-indexed recursive-descent JSON value parser; returns the value
and the unconsumed input.  Number syntax is validated only lexically
(first character a digit or minus).  Duplicate object keys are kept in
order of appearance (the serializer never produces duplicates). -/
def parseVal : Nat → List Char → Option (JsValue × List Char)
  | 0, _ => none
  | fuel + 1, s =>
    match skipWs s with
    | 'n' :: 'u' :: 'l' :: 'l' :: r => some (.null, r)
    | 't' :: 'r' :: 'u' :: 'e' :: r => some (.bool true, r)
    | 'f' :: 'a' :: 'l' :: 's' :: 'e' :: r => some (.bool false, r)
    | '\"' :: r =>
      match parseStrBody r with
      | some (cs, r2) => some (.str cs, r2)
      | none => none
    | '[' :: r =>
      (match skipWs r with
       | ']' :: r2 => some (.arr [], r2)
       | _ =>
         match parseElems fuel r with
         | some (es, r2) => some (.arr es, r2)
         | none => none)
    | '\x7b' :: r =>
      (match skipWs r with
       | '\x7d' :: r2 => some (.obj [], r2)
       | _ =>
         match parseMembers fuel r with
         | some (fs, r2) => some (.obj fs, r2)
         | none => none)
    | c :: r =>
      if c == '-' || "0123456789".data.contains c then
        some (.num ((c :: r).takeWhile isNumChar), (c :: r).dropWhile isNumChar)
      else none
    | [] => none

/-- Elements of a nonempty JSON array, up to and including `]`. -/
def parseElems : Nat → List Char → Option (List JsValue × List Char)
  | 0, _ => none
  | fuel + 1, s =>
    match parseVal fuel s with
    | none => none
    | some (v, r) =>
      match skipWs r with
      | ',' :: r2 =>
        match parseElems fuel r2 with
        | some (vs, r3) => some (v :: vs, r3)
        | none => none
      | ']' :: r2 => some ([v], r2)
      | _ => none

/-- Members of a nonempty JSON object, up to and including the closing
brace. -/
def parseMembers : Nat → List Char → Option (List (List Char × JsValue) × List Char)
  | 0, _ => none
  | fuel + 1, s =>
    match skipWs s with
    | '\"' :: r =>
      (match parseStrBody r with
       | none => none
       | some (k, r2) =>
         match skipWs r2 with
         | ':' :: r3 =>
           (match parseVal fuel r3 with
            | none => none
            | some (v, r4) =>
              match skipWs r4 with
              | ',' :: r5 =>
                (match parseMembers fuel r5 with
                 | some (fs, r6) => some ((k, v) :: fs, r6)
                 | none => none)
              | '\x7d' :: r5 => some ([(k, v)], r5)
              | _ => none)
         | _ => none)
    | _ => none

end

/-- `JSON.parse`: parse one value, allow trailing whitespace, reject any
other trailing input (`none` models the thrown `SyntaxError`). -/
def jsonParse (s : List Char) : Option JsValue :=
  match parseVal (2 * s.length + 2) s with
  | some (v, r) => if (skipWs r).isEmpty then some v else none
  | none => none

/-! ### Exporter (export-config.js) -/

/-- `exportSiteConfig` after the response arrived (`data` is the GraphQL
`data` field): guard `!data?.site?.configuration`, sanitize the whole
serialized envelope, write `sanitizedData.site.configuration.effectiveContents`
to site-config.json and return `config.id` — note that by then `config`
is the contents string, not the configuration object.  The `ok` value is
the pair (value written to the file, value returned to the caller). -/
def exportSiteConfig (data : JsValue) : Except (List Char) (JsValue × JsValue) :=
  if jsTruthy (jsGet (jsGet data ("site".data)) ("configuration".data)) = false then
    Except.error ("Failed to retrieve site configuration".data)
  else
    match jsonParse (sanitizeSerialized (jsonStringify data)) with
    | none => Except.error ("sanitized payload failed to re-parse".data)
    | some sanitizedData =>
      let config :=
        jsGet (jsGet (jsGet sanitizedData ("site".data)) ("configuration".data))
          ("effectiveContents".data)
      Except.ok (config, jsGet config ("id".data))

/-- `exportExternalServices` after the response arrived: guard
`!data?.externalServices?.nodes`, sanitize the serialized envelope, write
the pretty-printed node list to external-services.json and return the
list.  The `ok` value is the pair (file text written, node list). -/
def exportExternalServices (data : JsValue) : Except (List Char) (List Char × JsValue) :=
  if jsTruthy (jsGet (jsGet data ("externalServices".data)) ("nodes".data)) = false then
    Except.error ("Failed to retrieve external services".data)
  else
    match jsonParse (sanitizeSerialized (jsonStringify data)) with
    | none => Except.error ("sanitized payload failed to re-parse".data)
    | some sanitizedData =>
      let services := jsGet (jsGet sanitizedData ("externalServices".data)) ("nodes".data)
      Except.ok (jsonStringifyPretty services, services)

/-- The export summary object built by `main` before it is pretty-printed
into export-summary.json. -/
def exportSummary (timestamp baseUrl : List Char) (siteConfigId : JsValue)
    (count : Nat) : JsValue :=
  JsValue.obj
    [("timestamp".data, JsValue.str timestamp),
     ("sourcegraphUrl".data, JsValue.str baseUrl),
     ("siteConfigId".data, siteConfigId),
     ("externalServicesCount".data, JsValue.num (natLex count))]

/-! ### Transport client (`executeQuery` response handling, identical in
both scripts) -/

/-- One entry of external-services.json, as exported: the importer reads
`displayName`, `kind` and `config` and ignores `id`. -/
structure Service where
  id : String
  kind : String
  displayName : String
  config : String
deriving DecidableEq

/-- One node of the target's current `externalServices` query result. -/
structure ExistingService where
  id : String
  displayName : String
  kind : String
deriving DecidableEq

/-- A network operation issued by the importer, with its payload. -/
inductive NetCall where
  | listExternalServices
  | addExternalService (displayName kind config : String)
deriving DecidableEq

/-- The duplicate lookup of the import loop:
`existingServices.find(s => s.displayName === service.displayName && s.kind === service.kind)`. -/
def findDup (existing : List ExistingService) (s : Service) : Option ExistingService :=
  existing.find? fun e => e.displayName == s.displayName && e.kind == s.kind

/-- The `addExternalService` mutation call for one bundle entry, carrying
exactly the `displayName`, `kind` and `config` of that entry. -/
def toAdd (s : Service) : NetCall :=
  NetCall.addExternalService s.displayName s.kind s.config

/-- Result of the per-entry loop: whether it ran to completion, the
`added` and `skipped` counters, and the mutation calls issued in order. -/
structure LoopResult where
  ok : Bool
  added : Nat
  skipped : Nat
  calls : List NetCall
deriving DecidableEq

/-- The `for (const service of services)` loop of
`importExternalServices`: look up a duplicate in the (never updated) list
fetched once before the loop; if found, count as skipped; otherwise issue
the mutation — `mutOk added` tells whether that (zero-indexed) mutation
succeeds; on a rejection the loop aborts at once with the calls issued so
far. -/
def importLoop (existing : List ExistingService) (mutOk : Nat → Bool) :
    List Service → Nat → Nat → LoopResult
  | [], added, skipped => ⟨true, added, skipped, []⟩
  | s :: rest, added, skipped =>
    match findDup existing s with
    | some _ => importLoop existing mutOk rest added (skipped + 1)
    | none =>
      if mutOk added then
        let r := importLoop existing mutOk rest (added + 1) skipped
        ⟨r.ok, r.added, r.skipped, toAdd s :: r.calls⟩
      else ⟨false, added, skipped, [toAdd s]⟩

/-- Everything the import run observes from outside: existence of the
input directory and the two required files, the site-config file's text
(never read by the script beyond the existence check), the result of
`JSON.parse` on external-services.json (`none` models a syntax error),
the response to the external-services query (`none` models a failed
query) and the per-mutation success function. -/
structure World where
  inputDirExists : Bool
  siteConfigFileExists : Bool
  siteConfigContents : String
  extServicesFileExists : Bool
  parsedBundle : Option (List Service)
  listResponse : Option (List ExistingService)
  mutOk : Nat → Bool

/-- Observable outcome of one import run: process exit code, the ordered
trace of network calls, the `status` field of import-summary.json if that
file was written (`none` when the run died before the write), and the
final counters. -/
structure RunOutcome where
  exitCode : Nat
  calls : List NetCall
  summaryStatus : Option String
  added : Nat
  skipped : Nat
deriving DecidableEq

/-- The whole import-config.js run (arguments already in place):
existence checks in script order, each failing with exit 1 before any
network call; then `importExternalServices` (parse the bundle, one list
query, the per-entry loop); on success `main` writes the summary with
status `completed` and exits 0; any rejection reaches the catch block,
which exits 1 without writing a summary. -/
def runImport (w : World) : RunOutcome :=
  if w.inputDirExists = false then ⟨1, [], none, 0, 0⟩
  else if w.siteConfigFileExists = false then ⟨1, [], none, 0, 0⟩
  else if w.extServicesFileExists = false then ⟨1, [], none, 0, 0⟩
  else
    match w.parsedBundle with
    | none => ⟨1, [], none, 0, 0⟩
    | some services =>
      match w.listResponse with
      | none => ⟨1, [NetCall.listExternalServices], none, 0, 0⟩
      | some existing =>
        let r := importLoop existing w.mutOk services 0 0
        if r.ok then
          ⟨0, NetCall.listExternalServices :: r.calls, some "completed", r.added, r.skipped⟩
        else
          ⟨1, NetCall.listExternalServices :: r.calls, none, r.added, r.skipped⟩

/-- The bundle entries that are not skipped: those without a
(displayName, kind) match among the target's existing services. -/
def pendingOf (existing : List ExistingService) (ss : List Service) : List Service :=
  ss.filter fun s => !(findDup existing s).isSome

/-- Number of bundle entries the loop skips. -/
def skippedCount (existing : List ExistingService) (ss : List Service) : Nat :=
  ss.countP fun s => (findDup existing s).isSome

/-- Every step of the import run succeeds: all preconditions hold, the
bundle parses, the list query answers, and every mutation the loop has to
issue succeeds. -/
def importSucceeds (w : World) : Prop :=
  w.inputDirExists = true ∧ w.siteConfigFileExists = true ∧
    w.extServicesFileExists = true ∧
    ∃ ss existing, w.parsedBundle = some ss ∧ w.listResponse = some existing ∧
      ∀ j, j < (pendingOf existing ss).length → w.mutOk j = true

/-! ### Concrete inputs used by witnesses and counterexamples -/

/-- A successful site-configuration response envelope: the configuration
has id "abc" and effective contents "cfg". -/
def dataC1 : JsValue :=
  JsValue.obj
    [("site".data, JsValue.obj
      [("configuration".data, JsValue.obj
        [("id".data, JsValue.str "abc".data),
         ("effectiveContents".data, JsValue.str "cfg".data)])])]

/-- A site-configuration response whose contents hold one pre-existing
replacement sentinel and one redaction sentinel. -/
def dataC2 : JsValue :=
  JsValue.obj
    [("site".data, JsValue.obj
      [("configuration".data, JsValue.obj
        [("id".data, JsValue.str "1".data),
         ("effectiveContents".data, JsValue.str "NEEDS_UPDATING REDACTED".data)])])]

/-- A bundle entry. -/
def svcA : Service := ⟨"id1", "GITHUB", "github", "cfg1"⟩

/-- A second bundle entry with the same (displayName, kind) pair as
`svcA` but a different identifier and config. -/
def svcB : Service := ⟨"id2", "GITHUB", "github", "cfg2"⟩

/-- An existing service on the target matching `svcA` (and `svcB`) by
(displayName, kind). -/
def exA : ExistingService := ⟨"tid", "github", "GITHUB"⟩

/-- A fully healthy world: directory and files present, a one-entry
bundle, an empty target, every mutation succeeds. -/
def worldOk : World :=
  ⟨true, true, "site config text", true, some [svcA], some [], fun _ => true⟩

/-- A world whose input directory is missing. -/
def worldNoDir : World :=
  ⟨false, true, "site config text", true, some [svcA], some [], fun _ => true⟩

/-- A world where the target already has a matching service for the
single bundle entry. -/
def worldDup : World :=
  ⟨true, true, "site config text", true, some [svcA], some [exA], fun _ => true⟩

/-- A world where the only mutation the loop issues is rejected. -/
def worldFail : World :=
  ⟨true, true, "site config text", true, some [svcA], some [], fun _ => false⟩

/-- A world whose bundle holds two entries with the same
(displayName, kind) pair, against an empty target. -/
def worldTwin : World :=
  ⟨true, true, "site config text", true, some [svcA, svcB], some [], fun _ => true⟩

/-! ### Theorems -/

/-- Unfolding equation of the fuel worker at positive fuel. -/
theorem replaceAllF_succ (pat repl : List Char) (f : Nat) (s : List Char) :
    replaceAllF pat repl (f + 1) s =
      if pat ≠ [] ∧ leadsWith pat s = true ∧ s ≠ [] then
        repl ++ replaceAllF pat repl f (s.drop pat.length)
      else
        match s with
        | [] => []
        | c :: rest => c :: replaceAllF pat repl f rest := rfl

/-- Fuel irrelevance: any fuel above the input length computes the same
result as the canonical fuel. -/
theorem replaceAllF_fuel (pat repl : List Char) :
    ∀ fuel s, s.length < fuel →
      replaceAllF pat repl fuel s = replaceAllF pat repl (s.length + 1) s := by
  intro fuel
  induction fuel using Nat.strong_induction_on with
  | _ fuel ih =>
    match fuel with
    | 0 => intro s h; exact absurd h (by omega)
    | f + 1 =>
      intro s h
      by_cases hc : pat ≠ [] ∧ leadsWith pat s = true ∧ s ≠ []
      · have hp : 0 < pat.length := List.length_pos.mpr hc.1
        have hs : 0 < s.length := List.length_pos.mpr hc.2.2
        rw [replaceAllF_succ, if_pos hc, replaceAllF_succ, if_pos hc]
        rw [ih f (by omega) _ (by simp [List.length_drop]; omega)]
        rw [ih s.length (by omega) _ (by simp [List.length_drop]; omega)]
      · cases s with
        | nil =>
          rw [replaceAllF_succ, if_neg hc, replaceAllF_succ, if_neg hc]
        | cons c rest =>
          rw [replaceAllF_succ, if_neg hc, replaceAllF_succ, if_neg hc]
          show c :: replaceAllF pat repl f rest = c :: replaceAllF pat repl (rest.length + 1) rest
          have : rest.length < f := by simp at h; omega
          rw [ih f (by omega) rest this]

/-- `replaceAll` on a string led by the pattern: emit the replacement and
continue after the match. -/
theorem replaceAll_pos (pat repl s : List Char) (h1 : pat ≠ [])
    (h2 : leadsWith pat s = true) (h3 : s ≠ []) :
    replaceAll pat repl s = repl ++ replaceAll pat repl (s.drop pat.length) := by
  have hp : 0 < pat.length := List.length_pos.mpr h1
  have hs : 0 < s.length := List.length_pos.mpr h3
  rw [replaceAll, replaceAllF_succ, if_pos ⟨h1, h2, h3⟩, replaceAll]
  rw [replaceAllF_fuel pat repl s.length _ (by simp [List.length_drop]; omega)]

/-- `replaceAll` on a string not led by the pattern: copy one character. -/
theorem replaceAll_neg (pat repl : List Char) (c : Char) (rest : List Char)
    (h : ¬(pat ≠ [] ∧ leadsWith pat (c :: rest) = true)) :
    replaceAll pat repl (c :: rest) = c :: replaceAll pat repl rest := by
  have h2 : ¬(pat ≠ [] ∧ leadsWith pat (c :: rest) = true ∧ (c :: rest) ≠ []) := by
    rintro ⟨ha, hb, -⟩
    exact h ⟨ha, hb⟩
  rw [replaceAll, replaceAllF_succ, if_neg h2]
  rfl

/-- A pattern leads any extension of itself. -/
theorem leadsWith_self_app (p t : List Char) : leadsWith p (p ++ t) = true := by
  induction p with
  | nil => rfl
  | cons c ps ih => simp [leadsWith, ih]

/-- A string led by `p` splits as `p` followed by its remainder. -/
theorem leadsWith_append_drop (p : List Char) :
    ∀ s, leadsWith p s = true → s = p ++ s.drop p.length := by
  induction p with
  | nil => intro s _; simp
  | cons c ps ih =>
    intro s h
    cases s with
    | nil => simp [leadsWith] at h
    | cons c2 rest =>
      simp [leadsWith] at h
      obtain ⟨h1, h2⟩ := h
      subst h1
      simp only [List.length_cons, List.drop_succ_cons]
      exact congrArg (c :: ·) (ih rest h2)

/-- Whether `p` leads `d ++ t` depends only on `d` once `d` is at least as
long as `p`. -/
theorem leadsWith_inside (p : List Char) :
    ∀ d t, p.length ≤ d.length → leadsWith p (d ++ t) = leadsWith p d := by
  induction p with
  | nil => intro d t _; rfl
  | cons c ps ih =>
    intro d t h
    cases d with
    | nil => simp at h
    | cons x d2 =>
      show (c == x && leadsWith ps (d2 ++ t)) = (c == x && leadsWith ps d2)
      rw [ih d2 t (by simpa using h)]

/-- A pattern cannot lead `d ++ t` when the shorter `d` fails to lead the
pattern itself. -/
theorem leadsWith_cross (p d t : List Char) (hlen : d.length < p.length)
    (hnot : leadsWith d p = false) : leadsWith p (d ++ t) = false := by
  induction d generalizing p with
  | nil => simp [leadsWith] at hnot
  | cons x d2 ih =>
    cases p with
    | nil => simp at hlen
    | cons c ps =>
      show (c == x && leadsWith ps (d2 ++ t)) = false
      by_cases hxc : x = c
      · subst hxc
        have h2 : leadsWith d2 ps = false := by
          simpa [leadsWith] using hnot
        rw [ih ps (by simpa using hlen) h2]
        simp
      · have : (c == x) = false := by
          simp
          exact fun hcx => hxc hcx.symm
        rw [this]
        simp

/-- Unfolding equation of `countOccur`. -/
theorem countOccur_cons (pat : List Char) (c : Char) (rest : List Char) :
    countOccur pat (c :: rest) =
      (if leadsWith pat (c :: rest) then 1 else 0) + countOccur pat rest := rfl

/-- The strict tails of a list are closed under taking tails. -/
theorem tailsStrict_tail_mem (b : List Char) : ∀ (x : Char) (q : List Char),
    (x :: q) ∈ tailsStrict b → q ∈ tailsStrict b := by
  induction b with
  | nil => intro x q h; simp [tailsStrict] at h
  | cons y b2 ih =>
    intro x q h
    simp [tailsStrict] at h ⊢
    rcases h with h | h
    · right
      rw [← h]
      simp [tailsStrict]
    · right
      exact ih x q h

/-- In a `blockFree` block, no occurrence of the pattern can start
strictly inside the block, whatever follows it. -/
theorem blockFree_no_lead (p b : List Char) (hb : blockFree p b = true) :
    ∀ d, d ∈ tailsStrict b → d ≠ [] → ∀ t, leadsWith p (d ++ t) = false := by
  intro d hd hne t
  have hall := List.all_eq_true.mp hb d hd
  rw [Bool.or_eq_true] at hall
  rcases hall with h | h
  · exact absurd (by simpa using h) hne
  · by_cases hl : p.length ≤ d.length
    · rw [if_pos hl] at h
      rw [leadsWith_inside p d t hl]
      simpa using h
    · rw [if_neg hl] at h
      exact leadsWith_cross p d t (by omega) (by simpa using h)

/-- `blockFree` is inherited by the tail of the block. -/
theorem blockFree_tail (p : List Char) (x : Char) (b : List Char)
    (h : blockFree p (x :: b) = true) : blockFree p b = true := by
  rw [blockFree] at h ⊢
  rw [show tailsStrict (x :: b) = b :: tailsStrict b from rfl] at h
  rw [List.all_cons, Bool.and_eq_true] at h
  exact h.2

/-- Counting across a `blockFree` block: only a match at the very start of
the block can contribute. -/
theorem countOccur_block (p : List Char) : ∀ (b t : List Char), b ≠ [] →
    blockFree p b = true →
    countOccur p (b ++ t) = (if leadsWith p (b ++ t) then 1 else 0) + countOccur p t := by
  intro b
  induction b with
  | nil => intro t h; exact absurd rfl h
  | cons x b2 ih =>
    intro t hne hb
    cases b2 with
    | nil => rfl
    | cons y b3 =>
      have hmem : (y :: b3) ∈ tailsStrict (x :: y :: b3) := by simp [tailsStrict]
      have hlead := blockFree_no_lead p (x :: y :: b3) hb (y :: b3) hmem (by simp) t
      have ih2 := ih t (by simp) (blockFree_tail p x (y :: b3) hb)
      rw [show (x :: y :: b3) ++ t = x :: ((y :: b3) ++ t) from rfl]
      rw [countOccur_cons, ih2, hlead]
      simp

/-- A prepended replacement sentinel contributes exactly one occurrence of
itself. -/
theorem countOccur_N_Nblock (t : List Char) :
    countOccur NEEDS (NEEDS ++ t) = 1 + countOccur NEEDS t := by
  rw [countOccur_block NEEDS NEEDS t (by decide) (by decide)]
  rw [leadsWith_self_app]
  simp

/-- A prepended redaction sentinel contributes exactly one occurrence of
itself. -/
theorem countOccur_R_Rblock (u : List Char) :
    countOccur RED (RED ++ u) = 1 + countOccur RED u := by
  rw [countOccur_block RED RED u (by decide) (by decide)]
  rw [leadsWith_self_app]
  simp

/-- A prepended replacement sentinel contributes no occurrence of the
redaction sentinel. -/
theorem countOccur_R_Nblock (t : List Char) :
    countOccur RED (NEEDS ++ t) = countOccur RED t := by
  rw [countOccur_block RED NEEDS t (by decide) (by decide)]
  rw [show leadsWith RED (NEEDS ++ t) = false from rfl]
  simp

/-- A prepended redaction sentinel contributes no occurrence of the
replacement sentinel. -/
theorem countOccur_N_Rblock (u : List Char) :
    countOccur NEEDS (RED ++ u) = countOccur NEEDS u := by
  rw [countOccur_block NEEDS RED u (by decide) (by decide)]
  rw [show leadsWith NEEDS (RED ++ u) = false from rfl]
  simp

/-- No nonempty proper suffix of the replacement sentinel leads it (the
sentinel has no border). -/
theorem tails_NEEDS_block : ∀ q ∈ tailsStrict NEEDS,
    q = [] ∨ (leadsWith q NEEDS = false ∧ q.length ≤ NEEDS.length) := by decide

/-- No nonempty suffix of the redaction sentinel leads the replacement
sentinel. -/
theorem tails_RED_block : ∀ q ∈ tailsStrict RED,
    q = [] ∨ (leadsWith q NEEDS = false ∧ q.length ≤ NEEDS.length) := by decide

/-- Rewriting cannot create an occurrence of a tracked suffix at the front:
if a suffix from the closed family `S` leads the rewritten string, it
already led the original. -/
theorem suffix_back_gen (S : List (List Char))
    (hclosed : ∀ x q, (x :: q) ∈ S → q ∈ S)
    (hblock : ∀ q ∈ S, q = [] ∨ (leadsWith q NEEDS = false ∧ q.length ≤ NEEDS.length)) :
    ∀ (n : Nat) (s : List Char), s.length ≤ n → ∀ q ∈ S,
      leadsWith q (replaceAll RED NEEDS s) = true → leadsWith q s = true := by
  intro n
  induction n with
  | zero =>
    intro s hs q hq h
    have hnil : s = [] := by
      cases s with
      | nil => rfl
      | cons a as => simp at hs
    subst hnil
    rcases hblock q hq with rfl | ⟨hf, hlen⟩
    · rfl
    · rw [show replaceAll RED NEEDS [] = [] from rfl] at h
      cases q with
      | nil => rfl
      | cons a as => simp [leadsWith] at h
  | succ m ih =>
    intro s hs q hq h
    by_cases hR : leadsWith RED s = true ∧ s ≠ []
    · rw [replaceAll_pos RED NEEDS s (by decide) hR.1 hR.2] at h
      rcases hblock q hq with rfl | ⟨hf, hlen⟩
      · rfl
      · rw [leadsWith_inside q NEEDS _ hlen] at h
        rw [hf] at h
        cases h
    · cases s with
      | nil =>
        rcases hblock q hq with rfl | ⟨hf, hlen⟩
        · rfl
        · rw [show replaceAll RED NEEDS [] = [] from rfl] at h
          cases q with
          | nil => rfl
          | cons a as => simp [leadsWith] at h
      | cons c rest =>
        have hneg : replaceAll RED NEEDS (c :: rest) = c :: replaceAll RED NEEDS rest :=
          replaceAll_neg RED NEEDS c rest (fun hcon => hR ⟨hcon.2, by simp⟩)
        rw [hneg] at h
        cases q with
        | nil => rfl
        | cons x q2 =>
          simp [leadsWith] at h ⊢
          obtain ⟨hxc, h2⟩ := h
          refine ⟨hxc, ?_⟩
          exact ih rest (by simp at hs; omega) q2 (hclosed x q2 hq) h2

/-- The rewrite never leaves the redaction sentinel at the front unless it
was already there. -/
theorem lead0_RED (s : List Char)
    (h : leadsWith RED (replaceAll RED NEEDS s) = true) : leadsWith RED s = true := by
  by_cases hR : leadsWith RED s = true ∧ s ≠ []
  · exact hR.1
  · cases s with
    | nil =>
      rw [show replaceAll RED NEEDS [] = [] from rfl] at h
      exact absurd h (by decide)
    | cons c rest =>
      have hneg : replaceAll RED NEEDS (c :: rest) = c :: replaceAll RED NEEDS rest :=
        replaceAll_neg RED NEEDS c rest (fun hcon => hR ⟨hcon.2, by simp⟩)
      rw [hneg] at h
      rw [show RED = 'R' :: "EDACTED".data from rfl] at h ⊢
      simp [leadsWith] at h ⊢
      obtain ⟨hxc, h2⟩ := h
      refine ⟨hxc, ?_⟩
      exact suffix_back_gen (tailsStrict RED) (tailsStrict_tail_mem RED) tails_RED_block
        rest.length rest le_rfl ("EDACTED".data) (by decide) h2

/-- At a position where no match was replaced, the replacement sentinel
leads the rewritten string only if it led the original. -/
theorem lead0_NEEDS_back (s : List Char) (hR : ¬(leadsWith RED s = true))
    (h : leadsWith NEEDS (replaceAll RED NEEDS s) = true) : leadsWith NEEDS s = true := by
  cases s with
  | nil =>
    rw [show replaceAll RED NEEDS [] = [] from rfl] at h
    exact absurd h (by decide)
  | cons c rest =>
    have hneg : replaceAll RED NEEDS (c :: rest) = c :: replaceAll RED NEEDS rest :=
      replaceAll_neg RED NEEDS c rest (fun hcon => hR hcon.2)
    rw [hneg] at h
    rw [show NEEDS = 'N' :: "EEDS_UPDATING".data from rfl] at h ⊢
    simp [leadsWith] at h ⊢
    obtain ⟨hxc, h2⟩ := h
    refine ⟨hxc, ?_⟩
    exact suffix_back_gen (tailsStrict NEEDS) (tailsStrict_tail_mem NEEDS) tails_NEEDS_block
      rest.length rest le_rfl ("EEDS_UPDATING".data) (by decide) h2

/-- The rewrite copies verbatim any leading segment containing no `R`. -/
theorem replaceAll_copy : ∀ (q : List Char), (∀ x ∈ q, x ≠ 'R') →
    ∀ s, leadsWith q s = true →
      replaceAll RED NEEDS s = q ++ replaceAll RED NEEDS (s.drop q.length) := by
  intro q
  induction q with
  | nil => intro _ s _; simp
  | cons x q2 ih =>
    intro hq s h
    cases s with
    | nil => simp [leadsWith] at h
    | cons c rest =>
      simp [leadsWith] at h
      obtain ⟨hxc, h2⟩ := h
      have hcR : c ≠ 'R' := by
        rw [← hxc]
        exact hq x (by simp)
      have hneg : replaceAll RED NEEDS (c :: rest) = c :: replaceAll RED NEEDS rest := by
        apply replaceAll_neg
        rintro ⟨-, habs⟩
        rw [show RED = 'R' :: "EDACTED".data from rfl] at habs
        simp [leadsWith] at habs
        exact hcR habs.1.symm
      rw [hneg, ih (fun y hy => hq y (by simp [hy])) rest h2]
      simp only [List.length_cons, List.drop_succ_cons, List.cons_append]
      rw [hxc]

/-- A replacement sentinel at the front of the original survives the
rewrite. -/
theorem lead0_NEEDS_fwd (s : List Char) (h : leadsWith NEEDS s = true) :
    leadsWith NEEDS (replaceAll RED NEEDS s) = true := by
  rw [replaceAll_copy NEEDS (by decide) s h]
  exact leadsWith_self_app _ _

/-- After the rewrite no occurrence of the redaction sentinel remains. -/
theorem countOccur_RED_replaceAll : ∀ (n : Nat) (s : List Char), s.length ≤ n →
    countOccur RED (replaceAll RED NEEDS s) = 0 := by
  intro n
  induction n with
  | zero =>
    intro s hs
    have hnil : s = [] := by
      cases s with
      | nil => rfl
      | cons a as => simp at hs
    subst hnil
    rfl
  | succ m ih =>
    intro s hs
    by_cases hR : leadsWith RED s = true ∧ s ≠ []
    · rw [replaceAll_pos RED NEEDS s (by decide) hR.1 hR.2]
      rw [countOccur_R_Nblock]
      refine ih (s.drop RED.length) ?_
      have h1 : 0 < s.length := List.length_pos.mpr hR.2
      have h2 : 0 < RED.length := by decide
      simp [List.length_drop]
      omega
    · cases s with
      | nil => rfl
      | cons c rest =>
        have hneg : replaceAll RED NEEDS (c :: rest) = c :: replaceAll RED NEEDS rest :=
          replaceAll_neg RED NEEDS c rest (fun hcon => hR ⟨hcon.2, by simp⟩)
        rw [hneg, countOccur_cons]
        rw [ih rest (by simp at hs; omega)]
        have hind : leadsWith RED (c :: replaceAll RED NEEDS rest) = false := by
          cases hcase : leadsWith RED (c :: replaceAll RED NEEDS rest) with
          | false => rfl
          | true =>
            rw [← hneg] at hcase
            exact absurd ⟨lead0_RED (c :: rest) hcase, by simp⟩ hR
        rw [hind]
        simp

/-- The rewrite leaves exactly the original replacement-sentinel
occurrences plus one per replaced redaction sentinel. -/
theorem countOccur_NEEDS_replaceAll : ∀ (n : Nat) (s : List Char), s.length ≤ n →
    countOccur NEEDS (replaceAll RED NEEDS s) = countOccur NEEDS s + countOccur RED s := by
  intro n
  induction n with
  | zero =>
    intro s hs
    have hnil : s = [] := by
      cases s with
      | nil => rfl
      | cons a as => simp at hs
    subst hnil
    rfl
  | succ m ih =>
    intro s hs
    by_cases hR : leadsWith RED s = true ∧ s ≠ []
    · have hsplit := leadsWith_append_drop RED s hR.1
      rw [replaceAll_pos RED NEEDS s (by decide) hR.1 hR.2]
      rw [countOccur_N_Nblock]
      rw [ih (s.drop RED.length) (by
        have h1 : 0 < s.length := List.length_pos.mpr hR.2
        have h2 : 0 < RED.length := by decide
        simp [List.length_drop]
        omega)]
      conv_rhs => rw [hsplit]
      rw [countOccur_N_Rblock, countOccur_R_Rblock]
      omega
    · cases s with
      | nil => rfl
      | cons c rest =>
        have hneg : replaceAll RED NEEDS (c :: rest) = c :: replaceAll RED NEEDS rest :=
          replaceAll_neg RED NEEDS c rest (fun hcon => hR ⟨hcon.2, by simp⟩)
        have hRfalse : leadsWith RED (c :: rest) = false := by
          cases hcase : leadsWith RED (c :: rest) with
          | false => rfl
          | true => exact absurd ⟨hcase, by simp⟩ hR
        have hiff : leadsWith NEEDS (c :: replaceAll RED NEEDS rest) =
            leadsWith NEEDS (c :: rest) := by
          cases hcase : leadsWith NEEDS (c :: rest) with
          | true =>
            have hfwd := lead0_NEEDS_fwd (c :: rest) hcase
            rw [hneg] at hfwd
            exact hfwd
          | false =>
            cases hcase2 : leadsWith NEEDS (c :: replaceAll RED NEEDS rest) with
            | false => rfl
            | true =>
              rw [← hneg] at hcase2
              have hback := lead0_NEEDS_back (c :: rest) (by simp [hRfalse]) hcase2
              rw [hcase] at hback
              cases hback
        rw [hneg, countOccur_cons, ih rest (by simp at hs; omega), hiff]
        conv_rhs => rw [countOccur_cons, countOccur_cons]
        rw [hRfalse]
        rw [if_neg (by simp : ¬(false = true))]
        omega

/-- Claim C2 (amended): for every serialized configuration payload, the
sanitized output contains zero occurrences of the redaction sentinel
REDACTED, and its count of the replacement sentinel NEEDS_UPDATING equals
the payload's count of REDACTED plus the payload's pre-existing count of
NEEDS_UPDATING. -/
theorem c2_sanitize_counts (s : List Char) :
    countOccur RED (sanitizeSerialized s) = 0 ∧
    countOccur NEEDS (sanitizeSerialized s) = countOccur NEEDS s + countOccur RED s :=
  ⟨countOccur_RED_replaceAll s.length s le_rfl,
   countOccur_NEEDS_replaceAll s.length s le_rfl⟩

/-- Claim C2 counterexample: exporting a site configuration whose contents
already hold one NEEDS_UPDATING next to one REDACTED persists a file with
two occurrences of NEEDS_UPDATING while the original payload held one
REDACTED — the claimed count equality fails. -/
theorem c2_counterexample :
    exportSiteConfig dataC2 =
      Except.ok (JsValue.str "NEEDS_UPDATING NEEDS_UPDATING".data, JsValue.undefined) ∧
    countOccur RED ("NEEDS_UPDATING NEEDS_UPDATING".data) = 0 ∧
    countOccur RED (jsonStringify dataC2) = 1 ∧
    countOccur NEEDS ("NEEDS_UPDATING NEEDS_UPDATING".data) ≠
      countOccur RED (jsonStringify dataC2) :=
  ⟨rfl, rfl, rfl, by decide⟩

/-- Claim C1 (code bug): the response carries configuration id "abc", yet
`exportSiteConfig` returns `undefined` — line 108 rebinds `config` to the
contents string, so line 112 reads `.id` off a string — and the export
summary serialized with that value contains no `siteConfigId` field at
all. -/
theorem c1_siteConfigId_lost :
    jsGet (jsGet (jsGet dataC1 ("site".data)) ("configuration".data)) ("id".data) =
      JsValue.str "abc".data ∧
    exportSiteConfig dataC1 = Except.ok (JsValue.str "cfg".data, JsValue.undefined) ∧
    countOccur ("siteConfigId".data)
      (jsonStringifyPretty (exportSummary "2024-01-01T00:00:00.000Z".data
        "https://src.example.com".data JsValue.undefined 0)) = 0 :=
  ⟨rfl, rfl, rfl⟩

/-- A bundle entry with a duplicate on the target drops out of the pending
list. -/
theorem pendingOf_cons_skip (existing : List ExistingService) (s : Service)
    (rest : List Service) (h : (findDup existing s).isSome = true) :
    pendingOf existing (s :: rest) = pendingOf existing rest := by
  have h2 : ¬findDup existing s = none := Option.isSome_iff_ne_none.mp h
  simp [pendingOf, List.filter_cons, h, h2]

/-- A bundle entry without a duplicate on the target stays pending. -/
theorem pendingOf_cons_keep (existing : List ExistingService) (s : Service)
    (rest : List Service) (h : findDup existing s = none) :
    pendingOf existing (s :: rest) = s :: pendingOf existing rest := by
  simp [pendingOf, List.filter_cons, h]

/-- The import loop, when every needed mutation succeeds: it completes,
adds one per pending entry, skips the rest, and issues exactly the
pending entries' mutations in order. -/
theorem importLoop_all_ok (existing : List ExistingService) (mutOk : Nat → Bool) :
    ∀ (ss : List Service) (a k : Nat),
      (∀ j, j < (pendingOf existing ss).length → mutOk (a + j) = true) →
      importLoop existing mutOk ss a k =
        ⟨true, a + (pendingOf existing ss).length, k + skippedCount existing ss,
         (pendingOf existing ss).map toAdd⟩ := by
  intro ss
  induction ss with
  | nil =>
    intro a k h
    simp [importLoop, pendingOf, skippedCount]
  | cons s rest ih =>
    intro a k h
    cases hdup : findDup existing s with
    | some e =>
      have hp := pendingOf_cons_skip existing s rest (by simp [hdup])
      rw [hp] at h
      simp only [importLoop, hdup]
      rw [ih a (k + 1) h, hp]
      have hsk : skippedCount existing (s :: rest) = skippedCount existing rest + 1 := by
        simp [skippedCount, List.countP_cons, hdup]
      rw [hsk]
      congr 1
      omega
    | none =>
      have hp := pendingOf_cons_keep existing s rest hdup
      rw [hp] at h
      have h0 : mutOk a = true := by
        have := h 0 (by simp)
        simpa using this
      simp only [importLoop, hdup, h0, if_true]
      rw [ih (a + 1) k (by
        intro j hj
        have := h (j + 1) (by simp; omega)
        rw [show a + 1 + j = a + (j + 1) from by omega]
        exact this)]
      have hsk : skippedCount existing (s :: rest) = skippedCount existing rest := by
        simp [skippedCount, List.countP_cons, hdup]
      rw [hp, hsk]
      simp
      omega

/-- The import loop when the mutation for the pending entry at zero-based
index `n` fails: it aborts with `added = n` and the calls issued are
exactly the first `n + 1` pending entries' mutations. -/
theorem importLoop_abort (existing : List ExistingService) (mutOk : Nat → Bool) :
    ∀ (ss : List Service) (a k n : Nat),
      n < (pendingOf existing ss).length →
      (∀ j, j < n → mutOk (a + j) = true) →
      mutOk (a + n) = false →
      (importLoop existing mutOk ss a k).ok = false ∧
      (importLoop existing mutOk ss a k).added = a + n ∧
      (importLoop existing mutOk ss a k).calls =
        ((pendingOf existing ss).take (n + 1)).map toAdd := by
  intro ss
  induction ss with
  | nil =>
    intro a k n hn
    simp [pendingOf] at hn
  | cons s rest ih =>
    intro a k n hn hpre hfail
    cases hdup : findDup existing s with
    | some e =>
      have hp := pendingOf_cons_skip existing s rest (by simp [hdup])
      rw [hp] at hn ⊢
      simp only [importLoop, hdup]
      exact ih a (k + 1) n hn hpre hfail
    | none =>
      have hp := pendingOf_cons_keep existing s rest hdup
      rw [hp] at hn ⊢
      simp only [importLoop, hdup]
      cases n with
      | zero =>
        have hf : mutOk a = false := by simpa using hfail
        rw [hf]
        simp
      | succ n2 =>
        have h0 : mutOk a = true := by simpa using hpre 0 (by omega)
        rw [h0]
        simp only [if_true]
        obtain ⟨ih1, ih2, ih3⟩ := ih (a + 1) k n2 (by simp at hn; omega)
          (by
            intro j hj
            have := hpre (j + 1) (by omega)
            rw [show a + 1 + j = a + (j + 1) from by omega]
            exact this)
          (by
            rw [show a + 1 + n2 = a + (n2 + 1) from by omega]
            exact hfail)
        refine ⟨by simpa using ih1, by simp [ih2]; omega, ?_⟩
        simp only [List.take_succ_cons, List.map_cons]
        rw [← ih3]

/-- If the loop ran to completion, every mutation it had to issue
succeeded. -/
theorem importLoop_ok_mutOk (existing : List ExistingService) (mutOk : Nat → Bool) :
    ∀ (ss : List Service) (a k : Nat),
      (importLoop existing mutOk ss a k).ok = true →
      ∀ j, j < (pendingOf existing ss).length → mutOk (a + j) = true := by
  intro ss
  induction ss with
  | nil =>
    intro a k h j hj
    simp [pendingOf] at hj
  | cons s rest ih =>
    intro a k h j hj
    cases hdup : findDup existing s with
    | some e =>
      rw [pendingOf_cons_skip existing s rest (by simp [hdup])] at hj
      simp only [importLoop, hdup] at h
      exact ih a (k + 1) h j hj
    | none =>
      rw [pendingOf_cons_keep existing s rest hdup] at hj
      simp only [importLoop, hdup] at h
      cases hm : mutOk a with
      | false =>
        rw [hm] at h
        simp at h
      | true =>
        rw [hm] at h
        simp only [if_true] at h
        cases j with
        | zero => simpa using hm
        | succ j2 =>
          have := ih (a + 1) k (by simpa using h) j2 (by simp at hj; omega)
          rw [show a + (j2 + 1) = a + 1 + j2 from by omega]
          exact this

/-- Every call the loop issues is the mutation of some bundle entry. -/
theorem importLoop_calls_sub (existing : List ExistingService) (mutOk : Nat → Bool) :
    ∀ (ss : List Service) (a k : Nat) (c : NetCall),
      c ∈ (importLoop existing mutOk ss a k).calls → ∃ s, s ∈ ss ∧ c = toAdd s := by
  intro ss
  induction ss with
  | nil =>
    intro a k c hc
    simp [importLoop] at hc
  | cons s rest ih =>
    intro a k c hc
    cases hdup : findDup existing s with
    | some e =>
      simp only [importLoop, hdup] at hc
      obtain ⟨s2, hs2, he⟩ := ih a (k + 1) c hc
      exact ⟨s2, by simp [hs2], he⟩
    | none =>
      simp only [importLoop, hdup] at hc
      cases hm : mutOk a with
      | false =>
        rw [hm] at hc
        simp at hc
        exact ⟨s, by simp, hc⟩
      | true =>
        rw [hm] at hc
        simp only [if_true] at hc
        rw [List.mem_cons] at hc
        rcases hc with hc | hc
        · exact ⟨s, by simp, hc⟩
        · obtain ⟨s2, hs2, he⟩ := ih (a + 1) k c hc
          exact ⟨s2, by simp [hs2], he⟩

/-- Claim C3: when the target already holds an exact (displayName, kind)
match for every bundle entry, the run completes with zero creates, a
skipped count equal to the bundle size, and the list query as its only
network call. -/
theorem c3_idempotent (w : World) (ss : List Service) (existing : List ExistingService)
    (hdir : w.inputDirExists = true) (hsite : w.siteConfigFileExists = true)
    (hext : w.extServicesFileExists = true)
    (hparse : w.parsedBundle = some ss) (hlist : w.listResponse = some existing)
    (hall : ∀ s ∈ ss, ∃ e ∈ existing, e.displayName = s.displayName ∧ e.kind = s.kind) :
    runImport w = ⟨0, [NetCall.listExternalServices], some "completed", 0, ss.length⟩ := by
  have hmatch : ∀ s ∈ ss, (findDup existing s).isSome = true := by
    intro s hs
    obtain ⟨e, he, h1, h2⟩ := hall s hs
    rw [findDup, List.find?_isSome]
    exact ⟨e, he, by simp [h1, h2]⟩
  have hpend : pendingOf existing ss = [] := by
    rw [pendingOf, List.filter_eq_nil_iff]
    intro s hs
    simp [hmatch s hs]
  have hskip : skippedCount existing ss = ss.length := by
    rw [skippedCount]
    apply List.countP_eq_length.mpr
    intro s hs
    simp [hmatch s hs]
  have hloop := importLoop_all_ok existing w.mutOk ss 0 0
    (by rw [hpend]; intro j hj; simp at hj)
  rw [hpend, hskip] at hloop
  simp at hloop
  simp [runImport, hdir, hsite, hext, hparse, hlist, hloop]

/-- Witness for C3 at a concrete one-entry bundle already present on the
target. -/
theorem c3_witness :
    runImport worldDup = ⟨0, [NetCall.listExternalServices], some "completed", 0, 1⟩ :=
  c3_idempotent worldDup [svcA] [exA] rfl rfl rfl rfl rfl (by decide)

/-- Claim C4: importing a bundle into a target with no existing services
(all mutations succeeding) completes with created count equal to the
bundle size, zero skipped, and one create mutation per entry, in file
order, carrying that entry's displayName, kind and config. -/
theorem c4_empty_target (w : World) (ss : List Service)
    (hdir : w.inputDirExists = true) (hsite : w.siteConfigFileExists = true)
    (hext : w.extServicesFileExists = true)
    (hparse : w.parsedBundle = some ss) (hlist : w.listResponse = some [])
    (hmut : ∀ j, j < ss.length → w.mutOk j = true) :
    runImport w =
      ⟨0, NetCall.listExternalServices :: ss.map toAdd, some "completed", ss.length, 0⟩ := by
  have hpend : pendingOf [] ss = ss := by
    rw [pendingOf]
    apply List.filter_eq_self.mpr
    intro s hs
    simp [findDup]
  have hskip : skippedCount [] ss = 0 := by
    rw [skippedCount]
    apply List.countP_eq_zero.mpr
    intro s hs
    simp [findDup]
  have hloop := importLoop_all_ok [] w.mutOk ss 0 0
    (by rw [hpend]; intro j hj; simpa using hmut j hj)
  rw [hpend, hskip] at hloop
  simp at hloop
  simp [runImport, hdir, hsite, hext, hparse, hlist, hloop]

/-- Witness for C4 at a concrete one-entry bundle and empty target. -/
theorem c4_witness :
    runImport worldOk =
      ⟨0, NetCall.listExternalServices :: [svcA].map toAdd, some "completed",
       [svcA].length, 0⟩ :=
  c4_empty_target worldOk [svcA] rfl rfl rfl rfl rfl (fun _ _ => rfl)

/-- Claim C6: a missing input directory, a missing required file, or a
syntactically invalid external-services file makes the run exit with
status 1 before issuing any network call. -/
theorem c6_fail_fast (w : World)
    (h : w.inputDirExists = false ∨ w.siteConfigFileExists = false ∨
      w.extServicesFileExists = false ∨ w.parsedBundle = none) :
    (runImport w).exitCode = 1 ∧ (runImport w).calls = [] := by
  obtain ⟨d, sc, scc, ext, pb, lr, m⟩ := w
  rcases h with h | h | h | h
  · subst h; simp [runImport]
  · subst h; cases d <;> simp [runImport]
  · subst h; cases d <;> cases sc <;> simp [runImport]
  · subst h; cases d <;> cases sc <;> cases ext <;> simp [runImport]

/-- Witness for C6 at a world whose input directory is missing. -/
theorem c6_witness : (runImport worldNoDir).exitCode = 1 ∧ (runImport worldNoDir).calls = [] :=
  c6_fail_fast worldNoDir (Or.inl rfl)

/-- Claim C7: if the mutation for the pending entry at zero-based index
`n` fails, the run exits non-zero without writing a summary, and the
network trace is exactly the list query followed by the first `n + 1`
pending entries' create mutations — nothing for later entries and no
rollback of the earlier creations. -/
theorem c7_abort_no_rollback (w : World) (ss : List Service)
    (existing : List ExistingService) (n : Nat)
    (hdir : w.inputDirExists = true) (hsite : w.siteConfigFileExists = true)
    (hext : w.extServicesFileExists = true)
    (hparse : w.parsedBundle = some ss) (hlist : w.listResponse = some existing)
    (hn : n < (pendingOf existing ss).length)
    (hpre : ∀ j, j < n → w.mutOk j = true) (hfail : w.mutOk n = false) :
    (runImport w).exitCode = 1 ∧ (runImport w).summaryStatus = none ∧
    (runImport w).calls =
      NetCall.listExternalServices :: ((pendingOf existing ss).take (n + 1)).map toAdd := by
  obtain ⟨h1, h2, h3⟩ := importLoop_abort existing w.mutOk ss 0 0 n hn
    (by intro j hj; rw [Nat.zero_add]; exact hpre j hj)
    (by rw [Nat.zero_add]; exact hfail)
  have hrun : runImport w =
      ⟨1, NetCall.listExternalServices :: (importLoop existing w.mutOk ss 0 0).calls, none,
       (importLoop existing w.mutOk ss 0 0).added,
       (importLoop existing w.mutOk ss 0 0).skipped⟩ := by
    simp [runImport, hdir, hsite, hext, hparse, hlist, h1]
  rw [hrun, h3]
  exact ⟨rfl, rfl, rfl⟩

/-- Witness for C7 at a world whose first mutation is rejected. -/
theorem c7_witness :
    (runImport worldFail).exitCode = 1 ∧ (runImport worldFail).summaryStatus = none ∧
    (runImport worldFail).calls =
      NetCall.listExternalServices :: ((pendingOf [] [svcA]).take 1).map toAdd :=
  c7_abort_no_rollback worldFail [svcA] [] 0 rfl rfl rfl rfl rfl (by decide)
    (fun j hj => absurd hj (by omega)) rfl

/-- Claim C8: the import summary is written with status `completed`
exactly when every import step succeeded; it is never written with any
other status; and on any failure the process exits 1 with no summary
written. -/
theorem c8_summary_status (w : World) :
    ((runImport w).summaryStatus = some "completed" ↔ importSucceeds w) ∧
    (∀ st, (runImport w).summaryStatus = some st → st = "completed") ∧
    (¬ importSucceeds w → (runImport w).summaryStatus = none ∧ (runImport w).exitCode = 1) := by
  have key : (importSucceeds w ∧ (runImport w).summaryStatus = some "completed" ∧
        (runImport w).exitCode = 0) ∨
      (¬ importSucceeds w ∧ (runImport w).summaryStatus = none ∧
        (runImport w).exitCode = 1) := by
    obtain ⟨d, sc, scc, ext, pb, lr, m⟩ := w
    cases d with
    | false =>
      right
      exact ⟨fun hcon => Bool.noConfusion hcon.1, by simp [runImport], by simp [runImport]⟩
    | true =>
      cases sc with
      | false =>
        right
        exact ⟨fun hcon => Bool.noConfusion hcon.2.1, by simp [runImport], by simp [runImport]⟩
      | true =>
        cases ext with
        | false =>
          right
          exact ⟨fun hcon => Bool.noConfusion hcon.2.2.1, by simp [runImport],
            by simp [runImport]⟩
        | true =>
          cases pb with
          | none =>
            right
            refine ⟨?_, by simp [runImport], by simp [runImport]⟩
            rintro ⟨-, -, -, ss, ex, hss, -⟩
            exact Option.noConfusion hss
          | some ss =>
            cases lr with
            | none =>
              right
              refine ⟨?_, by simp [runImport], by simp [runImport]⟩
              rintro ⟨-, -, -, ss2, ex, hss, hex, -⟩
              exact Option.noConfusion hex
            | some existing =>
              cases hok : (importLoop existing m ss 0 0).ok with
              | true =>
                left
                have hmut := importLoop_ok_mutOk existing m ss 0 0 hok
                refine ⟨⟨rfl, rfl, rfl, ss, existing, rfl, rfl, ?_⟩,
                  by simp [runImport, hok], by simp [runImport, hok]⟩
                intro j hj
                have := hmut j hj
                rwa [Nat.zero_add] at this
              | false =>
                right
                refine ⟨?_, by simp [runImport, hok], by simp [runImport, hok]⟩
                rintro ⟨-, -, -, ss2, ex, hss, hex, hmut⟩
                rw [Option.some.injEq] at hss hex
                subst hss
                subst hex
                have := importLoop_all_ok existing m ss 0 0
                  (by intro j hj; rw [Nat.zero_add]; exact hmut j hj)
                rw [this] at hok
                simp at hok
  rcases key with ⟨hs, h1, h2⟩ | ⟨hs, h1, h2⟩
  · refine ⟨by simp [h1, hs], ?_, fun hcon => absurd hs hcon⟩
    intro st hst
    rw [h1] at hst
    exact (Option.some.inj hst).symm
  · refine ⟨by rw [h1]; simp; exact hs, ?_, fun _ => ⟨h1, h2⟩⟩
    intro st hst
    rw [h1] at hst
    exact Option.noConfusion hst

/-- Witness for C8 at a failing world: no summary and exit 1. -/
theorem c8_witness :
    (runImport worldNoDir).summaryStatus = none ∧ (runImport worldNoDir).exitCode = 1 :=
  (c8_summary_status worldNoDir).2.2 (fun hcon => Bool.noConfusion hcon.1)

/-- Claim C9: the run is entirely independent of the site-config file's
contents (the file figures only in the existence check), and every
network call is either the external-services list query or the
add-external-service mutation of some bundle entry — the site
configuration is never sent. -/
theorem c9_site_config_never_sent (w : World) :
    (∀ c, runImport { w with siteConfigContents := c } = runImport w) ∧
    (∀ call, call ∈ (runImport w).calls → call = NetCall.listExternalServices ∨
      ∃ ss s, w.parsedBundle = some ss ∧ s ∈ ss ∧ call = toAdd s) := by
  obtain ⟨d, sc, scc, ext, pb, lr, m⟩ := w
  constructor
  · intro c
    rfl
  · intro call hcall
    cases d with
    | false => simp [runImport] at hcall
    | true =>
      cases sc with
      | false => simp [runImport] at hcall
      | true =>
        cases ext with
        | false => simp [runImport] at hcall
        | true =>
          cases pb with
          | none => simp [runImport] at hcall
          | some ss =>
            cases lr with
            | none =>
              simp [runImport] at hcall
              left
              exact hcall
            | some existing =>
              cases hok : (importLoop existing m ss 0 0).ok with
              | true =>
                simp [runImport, hok] at hcall
                rcases hcall with hcall | hcall
                · left; exact hcall
                · right
                  obtain ⟨s, hs, he⟩ := importLoop_calls_sub existing m ss 0 0 call hcall
                  exact ⟨ss, s, rfl, hs, he⟩
              | false =>
                simp [runImport, hok] at hcall
                rcases hcall with hcall | hcall
                · left; exact hcall
                · right
                  obtain ⟨s, hs, he⟩ := importLoop_calls_sub existing m ss 0 0 call hcall
                  exact ⟨ss, s, rfl, hs, he⟩

/-- Witness for C9: changing the site-config text does not change the run,
and the list query is among the calls of a concrete run. -/
theorem c9_witness :
    runImport { worldOk with siteConfigContents := "other text" } = runImport worldOk ∧
    (NetCall.listExternalServices = NetCall.listExternalServices ∨
      ∃ ss s, worldOk.parsedBundle = some ss ∧ s ∈ ss ∧
        NetCall.listExternalServices = toAdd s) :=
  ⟨(c9_site_config_never_sent worldOk).1 "other text",
   (c9_site_config_never_sent worldOk).2 NetCall.listExternalServices (by decide)⟩

/-- Claim C10: duplicate detection consults only the list fetched before
the loop, so two bundle entries sharing a (displayName, kind) pair absent
from the target both get a create mutation in a single run. -/
theorem c10_duplicates_both_created (w : World) (pre mid post : List Service)
    (s1 s2 : Service) (existing : List ExistingService)
    (hdir : w.inputDirExists = true) (hsite : w.siteConfigFileExists = true)
    (hext : w.extServicesFileExists = true)
    (hparse : w.parsedBundle = some (pre ++ s1 :: (mid ++ s2 :: post)))
    (hlist : w.listResponse = some existing)
    (_hpair : s1.displayName = s2.displayName ∧ s1.kind = s2.kind)
    (h1 : findDup existing s1 = none) (h2 : findDup existing s2 = none)
    (hmut : ∀ j, w.mutOk j = true) :
    (runImport w).exitCode = 0 ∧
    (runImport w).calls = NetCall.listExternalServices ::
      ((pendingOf existing pre).map toAdd ++ toAdd s1 ::
        ((pendingOf existing mid).map toAdd ++ toAdd s2 ::
          (pendingOf existing post).map toAdd)) := by
  have hloop := importLoop_all_ok existing w.mutOk (pre ++ s1 :: (mid ++ s2 :: post)) 0 0
    (fun j _ => hmut (0 + j))
  have hpend : pendingOf existing (pre ++ s1 :: (mid ++ s2 :: post)) =
      pendingOf existing pre ++ s1 ::
        (pendingOf existing mid ++ s2 :: pendingOf existing post) := by
    simp [pendingOf, List.filter_append, List.filter_cons, h1, h2]
  rw [hpend] at hloop
  constructor
  · simp [runImport, hdir, hsite, hext, hparse, hlist, hloop]
  · simp [runImport, hdir, hsite, hext, hparse, hlist, hloop]

/-- Witness for C10 at a concrete two-entry bundle with an identical
(displayName, kind) pair. -/
theorem c10_witness :
    (runImport worldTwin).exitCode = 0 ∧
    (runImport worldTwin).calls = NetCall.listExternalServices ::
      ((pendingOf [] []).map toAdd ++ toAdd svcA ::
        ((pendingOf [] []).map toAdd ++ toAdd svcB :: (pendingOf [] []).map toAdd)) :=
  c10_duplicates_both_created worldTwin [] [] [] svcA svcB [] rfl rfl rfl rfl rfl
    ⟨rfl, rfl⟩ rfl rfl (fun _ => rfl)
